import Mathlib

/-!
Shallow embedding of `run_DINCAE_insitu.py` (data preparation and
orchestration script for the DINCAE gap-filling model).

Python floating-point values are modelled by rationals (`ℚ`) where the code
performs only field arithmetic and comparisons, and by reals (`ℝ`) where
transcendental functions (`cos`, `sin`, `sqrt`) appear.  NumPy's NaN is
modelled by `Option` (`none` = NaN / masked / fill value).
-/

namespace DINCAE

/-- Rounding `np.rint`: round to the nearest integer, ties to even. -/
def rint (q : ℚ) : ℤ :=
  let f : ℤ := ⌊q⌋
  let r : ℚ := q - f
  if r < 1/2 then f
  else if 1/2 < r then f + 1
  else if f % 2 = 0 then f else f + 1

/-- The target grid: 1-D longitude and latitude axes (`lon`, `lat` arrays
read from `mask.nc`). -/
structure Grid where
  lon : List ℚ
  lat : List ℚ

def Grid.nlon (g : Grid) : ℕ := g.lon.length
def Grid.nlat (g : Grid) : ℕ := g.lat.length
/-- Source `lon[0]`. -/
def Grid.lon0 (g : Grid) : ℚ := g.lon.headD 0
/-- Source `lat[0]`. -/
def Grid.lat0 (g : Grid) : ℚ := g.lat.headD 0
/-- Source `lon[1]-lon[0]`. -/
def Grid.dlon (g : Grid) : ℚ := g.lon.getD 1 0 - g.lon.getD 0 0
/-- Source `lat[1]-lat[0]`. -/
def Grid.dlat (g : Grid) : ℚ := g.lat.getD 1 0 - g.lat.getD 0 0
/-- Source `lon[-1]`. -/
def Grid.lonLast (g : Grid) : ℚ := g.lon.getLastD 0
/-- Source `lat[-1]`. -/
def Grid.latLast (g : Grid) : ℚ := g.lat.getLastD 0

/-- One observation as consumed by `binanalysis`: position, value and
inverse error variance. -/
structure Obs where
  lon : ℚ
  lat : ℚ
  value : ℚ
  invsigma2 : ℚ

/-- Source `i = np.rint((obslon - lon[0])/(lon[1]-lon[0]))` (column index). -/
def colIdx (g : Grid) (o : Obs) : ℤ := rint ((o.lon - g.lon0) / g.dlon)

/-- Source `j = np.rint((obslat - lat[0])/(lat[1]-lat[0]))` (row index). -/
def rowIdx (g : Grid) (o : Obs) : ℤ := rint ((o.lat - g.lat0) / g.dlat)

/-- Source `sel = (0 <= i) & (i < len(lon)) & (0 <= j) & (j < len(lat))`. -/
def obsInGrid (g : Grid) (o : Obs) : Bool :=
  decide (0 ≤ colIdx g o ∧ colIdx g o < (g.nlon : ℤ) ∧
          0 ≤ rowIdx g o ∧ rowIdx g o < (g.nlat : ℤ))

/-- Source `lin = j*len(lon) + i` (linear cell index). -/
def linIdx (g : Grid) (o : Obs) : ℤ := rowIdx g o * g.nlon + colIdx g o

/-- Accumulation `np.bincount(lin, weights=w, minlength=len(lat)*len(lon))` evaluated at
linear index `l`: the sum of the weights of the (in-grid) observations whose
linear index is `l`. -/
def bincount (g : Grid) (w : Obs → ℚ) (obs : List Obs) (l : ℕ) : ℚ :=
  (((obs.filter (fun o => obsInGrid g o)).filter
      (fun o => linIdx g o == (l : ℤ))).map w).sum

/-- Field `msum` before the uncertainty-floor correction:
`np.bincount(lin, weights=obsvalue[sel]*obsinvsigma2[sel], ...)`. -/
def msumRaw (g : Grid) (obs : List Obs) (l : ℕ) : ℚ :=
  bincount g (fun o => o.value * o.invsigma2) obs l

/-- Field `minvsigma2` before the uncertainty-floor correction:
`np.bincount(lin, weights=obsinvsigma2[sel], ...)`. -/
def minvsigma2Raw (g : Grid) (obs : List Obs) (l : ℕ) : ℚ :=
  bincount g (fun o => o.invsigma2) obs l

/-- Default `sigma2_min = (0.2)**2`. -/
def sigma2_min : ℚ := (2/10)^2

/-- Per-cell correction factor: `alpha = 1/(minvsigma2 * sigma2_min);
alpha[alpha > 1] = 1`.  In NumPy `1/0` is `inf`, which the clipping replaces
by `1`; the first branch reproduces that. -/
def alphaCell (m σ2min : ℚ) : ℚ :=
  if m * σ2min = 0 then 1
  else if 1 < 1 / (m * σ2min) then 1
  else 1 / (m * σ2min)

/-- Source `msum = alpha * msum` (the returned sum field). -/
def msumFinal (g : Grid) (obs : List Obs) (σ2min : ℚ) (l : ℕ) : ℚ :=
  alphaCell (minvsigma2Raw g obs l) σ2min * msumRaw g obs l

/-- Source `minvsigma2 = alpha * minvsigma2` (the returned inverse-variance field). -/
def minvsigma2Final (g : Grid) (obs : List Obs) (σ2min : ℚ) (l : ℕ) : ℚ :=
  alphaCell (minvsigma2Raw g obs l) σ2min * minvsigma2Raw g obs l

/-- Field `mmean`: starts as NaN everywhere and
`mmean[minvsigma2 > 0] = msum[minvsigma2 > 0] / minvsigma2[minvsigma2 > 0]`. -/
def mmean (g : Grid) (obs : List Obs) (σ2min : ℚ) (l : ℕ) : Option ℚ :=
  if 0 < minvsigma2Final g obs σ2min l then
    some (msumFinal g obs σ2min l / minvsigma2Final g obs σ2min l)
  else none

/-- One raw observation record as read by `loadobs` from the NetCDF file:
value, longitude, latitude, depth, and time.  The time stamp is modelled as
an integer month count (only `month mod 12` is ever used downstream). -/
structure ObsRec where
  value : ℚ
  lon : ℚ
  lat : ℚ
  depth : ℚ
  time : ℤ

/-- The selection of `loadobs`:
`sel = (obsdepth < 10) & (lon[0] < obslon) & (obslon < lon[-1]) &
(lat[0] < obslat) & (obslat < lat[-1]) & (np.abs(obsvalue) < 200)`. -/
def selObs (g : Grid) (r : ObsRec) : Bool :=
  decide (r.depth < 10) && decide (g.lon0 < r.lon) && decide (r.lon < g.lonLast) &&
  decide (g.lat0 < r.lat) && decide (r.lat < g.latLast) && decide (|r.value| < 200)

/-- NumPy boolean-mask indexing `xs[sel]`: keep the entries of `xs` whose
mask entry is `true`. -/
def applyMask {α : Type} : List α → List Bool → List α
  | x :: xs, b :: bs => if b then x :: applyMask xs bs else applyMask xs bs
  | _, _ => []

/-- Function `loadobs`: computes the boolean mask `sel` once and applies it to the
five parallel arrays, returning
`(obsvalue[sel], obslon[sel], obslat[sel], obsdepth[sel], obstime[sel])`. -/
def loadobs (g : Grid) (rs : List ObsRec) :
    List ℚ × List ℚ × List ℚ × List ℚ × List ℤ :=
  let sel := rs.map (fun r => selObs g r)
  (applyMask (rs.map ObsRec.value) sel,
   applyMask (rs.map ObsRec.lon) sel,
   applyMask (rs.map ObsRec.lat) sel,
   applyMask (rs.map ObsRec.depth) sel,
   applyMask (rs.map ObsRec.time) sel)

/-- A sample tensor `(lat, lon, channel) → value`; entries are reals since
channels 4 and 5 hold `cos`/`sin` values. -/
def Tensor : Type := ℕ → ℕ → ℕ → ℝ

/-- The all-zero tensor `np.zeros((len(lat),len(lon),nvar))`. -/
noncomputable def zerosT : Tensor := fun _ _ _ => 0

/-- Assignment `x[:,:,c] = f`: overwrite channel `c` of `t` with the 2-D
field `f`. -/
noncomputable def setChannel (t : Tensor) (c : ℕ) (f : ℕ → ℕ → ℝ) : Tensor :=
  fun j i cc => if cc = c then f j i else t j i cc

/-- Constant `meandataval = 15`. -/
def meandataval : ℚ := 15

/-- Source `obsmonths = obstime.astype('datetime64[M]').astype(int) % 12 + 1`,
with the time stamp modelled as a month count. -/
def monthOf (t : ℤ) : ℤ := t % 12 + 1

/-- The observations handed to `binanalysis` by `datagen` for one month:
values shifted by `meandataval` and unit inverse error variance
(`mobsinvsigma2 = np.ones(...)`). -/
def binObs (mobs : List ObsRec) : List Obs :=
  mobs.map (fun r => ⟨r.lon, r.lat, r.value - meandataval, 1⟩)

/-- The clean tensor `x` of `datagen`, built channel by channel:
`x[:,:,0] = msum`, `x[:,:,1] = minvsigma2`, `x[:,:,2] = lon` (per column),
`x[:,:,3] = lat` (per row), `x[:,:,4] = cos(2*pi*(month-1)/12)`,
`x[:,:,5] = sin(2*pi*(month-1)/12)`. -/
noncomputable def cleanX (g : Grid) (mobs : List ObsRec) (month : ℤ) : Tensor :=
  setChannel (setChannel (setChannel (setChannel (setChannel (setChannel
    zerosT
    0 (fun j i => ((msumFinal g (binObs mobs) sigma2_min (j * g.nlon + i) : ℚ) : ℝ)))
    1 (fun j i => ((minvsigma2Final g (binObs mobs) sigma2_min (j * g.nlon + i) : ℚ) : ℝ)))
    2 (fun _ i => ((g.lon.getD i 0 : ℚ) : ℝ)))
    3 (fun j _ => ((g.lat.getD j 0 : ℚ) : ℝ)))
    4 (fun _ _ => Real.cos (2 * Real.pi * ((month : ℝ) - 1) / 12)))
    5 (fun _ _ => Real.sin (2 * Real.pi * ((month : ℝ) - 1) / 12))

/-- The target slice `x[:,:,0:2]` paired with the input tensor. -/
noncomputable def ySlice (x : Tensor) : ℕ → ℕ → Fin 2 → ℝ :=
  fun j i c => x j i c.val

/-- The noise-jitter step applied to the input copy `xin` when `train` is
true: on cells with `minvsigma2 > 0`, channel 0 gains
`jitter_std_value * randn` and channel 1 becomes
`1/(1/minvsigma2 + jitter_std_value**2)`; channels 2 and 3 gain coordinate
jitter on every cell.  The random draws are the oracle fields `e0,e2,e3`. -/
noncomputable def noiseX (g : Grid) (x : Tensor) (minv : ℕ → ℚ) (jv jlon jlat : ℝ)
    (e0 e2 e3 : ℕ → ℕ → ℝ) : Tensor :=
  fun j i c =>
    if c = 0 then
      if 0 < minv (j * g.nlon + i) then x j i 0 + jv * e0 j i else x j i 0
    else if c = 1 then
      if 0 < minv (j * g.nlon + i) then
        1 / (1 / ((minv (j * g.nlon + i) : ℚ) : ℝ) + jv ^ 2)
      else x j i 1
    else if c = 2 then x j i 2 + jlon * e2 j i
    else if c = 3 then x j i 3 + jlat * e3 j i
    else x j i c

/-- Constant `size_gap = 1.5`. -/
def size_gap : ℚ := 3/2

/-- Constant `min_gap_count = 50`. -/
def min_gap_count : ℕ := 50

/-- Source `def dist(lon1,lat1,lon2,lat2): return np.sqrt((lon1-lon2)**2 + (lat2-lat1)**2)`. -/
noncomputable def dist (lon1 lat1 lon2 lat2 : ℝ) : ℝ :=
  Real.sqrt ((lon1 - lon2) ^ 2 + (lat2 - lat1) ^ 2)

/-- A candidate gap centre from a pair of uniform draws `u ∈ [0,1)²`:
`gap_lon = lon[0] + (lon[-1]-lon[0])*random.random()` and likewise for
`gap_lat`. -/
def gapCenter (g : Grid) (u : ℚ × ℚ) : ℚ × ℚ :=
  (g.lon0 + (g.lonLast - g.lon0) * u.1, g.lat0 + (g.latLast - g.lat0) * u.2)

/-- The gap mask
`selmask = (dist(x[:,:,2],gap_lon,x[:,:,3],gap_lat) < size_gap) & (xin[:,:,1] > 0)`.
Note the argument interleaving at the call site: with `dist`'s parameter
order `(lon1,lat1,lon2,lat2)` the first squared term is
`(x[:,:,2] - x[:,:,3])**2` and the second is `(gap_lat - gap_lon)**2`.
The square-root comparison is written in the equivalent squared form and
`xin[:,:,1] > 0` in the equivalent form `minvsigma2 > 0`; the lemma
`selmaskB_iff` proves this `Bool` version equal to the literal formula. -/
def selmaskB (g : Grid) (minv : ℕ → ℚ) (ctr : ℚ × ℚ) (j i : ℕ) : Bool :=
  decide ((g.lon.getD i 0 - g.lat.getD j 0) ^ 2 + (ctr.2 - ctr.1) ^ 2 < size_gap ^ 2 ∧
          0 < minv (j * g.nlon + i))

/-- Count `np.sum(selmask)`: the number of grid cells in the mask. -/
def gapCount (g : Grid) (minv : ℕ → ℚ) (ctr : ℚ × ℚ) : ℕ :=
  (((List.range g.nlat).map (fun j =>
    ((List.range g.nlon).filter (fun i => selmaskB g minv ctr j i)).length)).sum)

/-- The `while True` loop drawing gap centres until one covers at least
`min_gap_count` data cells, modelled with explicit fuel: try the candidate
draws `u 0, u 1, ...` in order and return the first centre whose mask counts
at least `min_gap_count` cells (`none` if no success within `fuel` draws). -/
def findCenter (g : Grid) (minv : ℕ → ℚ) (u : ℕ → ℚ × ℚ) (fuel : ℕ) :
    Option (ℚ × ℚ) :=
  ((List.range fuel).find? (fun n =>
    decide (min_gap_count ≤ gapCount g minv (gapCenter g (u n))))).map
    (fun n => gapCenter g (u n))

/-- The gap-masking writes `xin[:,:,0][selmask] = 0; xin[:,:,1][selmask] = 0`. -/
noncomputable def gapX (g : Grid) (xin : Tensor) (minv : ℕ → ℚ) (ctr : ℚ × ℚ) : Tensor :=
  fun j i c =>
    if (c = 0 ∨ c = 1) ∧ selmaskB g minv ctr j i = true then 0 else xin j i c

/-- One sample of `datagen` with `train=True` for a given month: the clean
tensor `x`, the corrupted copy `xin` (noise jitter then gap masking), and
the target `x[:,:,0:2]`.  Returns `none` when the gap loop does not
terminate within `fuel` draws. -/
noncomputable def sampleTrain (g : Grid) (mobs : List ObsRec) (month : ℤ)
    (jv jlon jlat : ℝ) (e0 e2 e3 : ℕ → ℕ → ℝ) (u : ℕ → ℚ × ℚ) (fuel : ℕ) :
    Option (Tensor × (ℕ → ℕ → Fin 2 → ℝ)) :=
  let x := cleanX g mobs month
  let minv := minvsigma2Final g (binObs mobs) sigma2_min
  let xinN := noiseX g x minv jv jlon jlat e0 e2 e3
  match findCenter g minv u fuel with
  | none => none
  | some ctr => some (gapX g xinN minv ctr, ySlice x)

/-- One sample of `datagen` with `train=False`: `xin` is an unmodified copy
of `x`, paired with the target `x[:,:,0:2]`. -/
noncomputable def sampleTest (g : Grid) (mobs : List ObsRec) (month : ℤ) :
    Tensor × (ℕ → ℕ → Fin 2 → ℝ) :=
  (cleanX g mobs month, ySlice (cleanX g mobs month))

/-- The state of the output NetCDF file written by `savesample`: coordinate
variables, the `meandata` field, and the two per-time-step record variables.
A cell holds `none` where the variable is masked (fill value). -/
structure NCFile where
  lon : List ℚ
  lat : List ℚ
  meandata : ℕ → ℕ → Option ℝ
  m_rec : ℕ → ℕ → ℕ → Option ℝ
  sigma_rec : ℕ → ℕ → ℕ → Option ℝ

/-- Function `savesample`: with `ii == 0` it creates the file (writing `lon`, `lat`
and the masked `meandata`, with both record variables empty); otherwise it
opens the existing file `prev` in append mode, leaving `lon`, `lat` and
`meandata` untouched.  In both cases it then writes, for each batch row
`n < bsize`, at time index `n + offset`:
`batch_m_rec[n] + meandata` masked by `meandata.mask` into `m_rec`, and
`np.sqrt(batch_sigma2_rec[n])` masked by `meandata.mask` into `sigma_rec`. -/
noncomputable def savesample (prev : NCFile) (batch_m batch_σ2 : ℕ → ℕ → ℕ → ℝ)
    (bsize : ℕ) (mdval : ℕ → ℕ → ℝ) (mmask : ℕ → ℕ → Bool)
    (lonL latL : List ℚ) (ii offset : ℕ) : NCFile :=
  let base : NCFile :=
    if ii = 0 then
      { lon := lonL, lat := latL,
        meandata := fun j i => if mmask j i then none else some (mdval j i),
        m_rec := fun _ _ _ => none,
        sigma_rec := fun _ _ _ => none }
    else prev
  { base with
    m_rec := fun t j i =>
      if offset ≤ t ∧ t < offset + bsize then
        (if mmask j i then none else some (batch_m (t - offset) j i + mdval j i))
      else base.m_rec t j i,
    sigma_rec := fun t j i =>
      if offset ≤ t ∧ t < offset + bsize then
        (if mmask j i then none else some (Real.sqrt (batch_σ2 (t - offset) j i)))
      else base.sigma_rec t j i }

/-- Source `obsmonths = obstime.astype('datetime64[M]').astype(int) % 12` as used
by `monthlyCVRMS` (0-based months). -/
def monthOf0 (t : ℤ) : ℤ := t % 12

/-- The observation records of one (0-based) calendar month. -/
def monthSel (rs : List ObsRec) (month : ℤ) : List ObsRec :=
  rs.filter (fun r => monthOf0 r.time == month)

/-- Terms `(mclim[sel] - mobsvalue[sel])**2` for one month: the reconstruction is
interpolated (`scipy.interpolate.interpn`, an external library modelled as
the oracle `interp`, with `none` for a non-finite result) at the point
`(obslat, obslon)` of each of the month's observations, and the squared
differences are kept exactly where the interpolated value is finite
(`sel = np.isfinite(mclim)`). -/
noncomputable def sqDiffs (interp : ℕ → ℚ × ℚ → Option ℝ) (month : ℕ)
    (rs : List ObsRec) : List ℝ :=
  (monthSel rs month).filterMap (fun r =>
    (interp month (r.lat, r.lon)).map (fun v => (v - (r.value : ℝ)) ^ 2))

/-- Source `RMS[month] = np.sqrt(np.mean((mclim[sel] - mobsvalue[sel])**2))`. -/
noncomputable def RMSmonth (interp : ℕ → ℚ × ℚ → Option ℝ) (rs : List ObsRec)
    (month : ℕ) : ℝ :=
  Real.sqrt ((sqDiffs interp month rs).sum / (sqDiffs interp month rs).length)

/-- Function `monthlyCVRMS`: the 12 monthly RMS values and
`totRMS = np.sqrt(np.mean(RMS**2))`. -/
noncomputable def monthlyCVRMS (interp : ℕ → ℚ × ℚ → Option ℝ)
    (rs : List ObsRec) : List ℝ × ℝ :=
  let RMS := (List.range 12).map (fun m => RMSmonth interp rs m)
  (RMS, Real.sqrt ((RMS.map (fun x => x ^ 2)).sum / 12))

/-- Example grid for concrete witnesses: `lon = [0,1,2]`, `lat = [0,1]`. -/
def gEx : Grid := ⟨[0, 1, 2], [0, 1]⟩

/-- Example observations: the first two land in cell `(j,i) = (1,0)`, the
third is outside the grid (its rounded column index is 5). -/
def obsEx : List Obs :=
  [⟨1/10, 9/10, 2, 3⟩, ⟨-1/10, 11/10, 4, 1⟩, ⟨5, 0, 1, 1⟩]

/-- Example observation records (one record landing in cell `(1,0)`). -/
def obsRecEx : List ObsRec := [⟨16, 1/10, 9/10, 5, 0⟩]

/-- A 2 x 2 grid with corners `(0,0)` and `(10,10)` exhibiting the gap-mask
distance bug. -/
def gEx7 : Grid := ⟨[0, 10], [0, 10]⟩

/-- One observation record at `(lon,lat) = (10,10)`, i.e. in cell `(1,1)`
of `gEx7`. -/
def obsRecEx7 : List ObsRec := [⟨16, 10, 10, 5, 0⟩]

/-- An example pre-existing output file. -/
def ncEx : NCFile :=
  ⟨[0], [0], fun _ _ => none, fun _ _ _ => none, fun _ _ _ => none⟩

/-- An example interpolation oracle: every point interpolates to `0`. -/
noncomputable def interpEx : ℕ → ℚ × ℚ → Option ℝ := fun _ _ => some 0

/-- One observation record with time stamp in month `0`. -/
def rsEx : List ObsRec := [⟨1, 5, 5, 5, 0⟩]

/-- If `r*n + c = j*n + i` with both `c` and `i` in `[0, n)` then the row and
column parts agree (uniqueness of the Euclidean decomposition). -/
theorem lin_decomp_unique {r c : ℤ} {n j i : ℕ} (hc0 : 0 ≤ c) (hcn : c < (n : ℤ))
    (hi : i < n) (h : r * n + c = (j : ℤ) * n + i) : r = j ∧ c = i := by
  have hn : (0 : ℤ) < n := lt_of_le_of_lt hc0 hcn
  have key : (r - (j : ℤ)) * n = (i : ℤ) - c := by ring_nf; linarith
  have hi0 : (0 : ℤ) ≤ i := Int.ofNat_nonneg i
  have hrj : r = (j : ℤ) := by
    rcases lt_trichotomy r (j : ℤ) with hlt | heq | hgt
    · exfalso
      have h1 : r - (j : ℤ) ≤ -1 := by omega
      have h2 : (r - (j : ℤ)) * n ≤ (-1) * n :=
        mul_le_mul_of_nonneg_right h1 (le_of_lt hn)
      have h3 : (i : ℤ) - c ≤ -n := by linarith
      linarith
    · exact heq
    · exfalso
      have h1 : 1 ≤ r - (j : ℤ) := by omega
      have h2 : (1 : ℤ) * n ≤ (r - (j : ℤ)) * n :=
        mul_le_mul_of_nonneg_right h1 (le_of_lt hn)
      have h3 : (n : ℤ) ≤ (i : ℤ) - c := by linarith
      have : (i : ℤ) < n := by exact_mod_cast hi
      linarith
  refine ⟨hrj, ?_⟩
  subst hrj
  linarith

/-- For a cell `(j, i)` inside the grid, an observation lands in the cell's
accumulator iff its rounded indices are exactly `(j, i)`. -/
theorem mem_cell_iff (g : Grid) (o : Obs) {j i : ℕ}
    (hj : j < g.nlat) (hi : i < g.nlon) :
    (obsInGrid g o = true ∧ linIdx g o = (j : ℤ) * g.nlon + i) ↔
    (colIdx g o = (i : ℤ) ∧ rowIdx g o = (j : ℤ)) := by
  constructor
  · rintro ⟨hin, hlin⟩
    rw [obsInGrid, decide_eq_true_iff] at hin
    obtain ⟨hc0, hcn, _, _⟩ := hin
    rw [linIdx] at hlin
    obtain ⟨hr, hc⟩ := lin_decomp_unique hc0 hcn hi hlin
    exact ⟨hc, hr⟩
  · rintro ⟨hc, hr⟩
    constructor
    · rw [obsInGrid, decide_eq_true_iff]
      refine ⟨by omega, by omega, by omega, by omega⟩
    · rw [linIdx, hc, hr]

/-- Lemma: `bincount` over a cell inside the grid sums exactly the observations
whose rounded indices select that cell. -/
theorem bincount_eq_cell_sum (g : Grid) (w : Obs → ℚ) (obs : List Obs)
    {j i : ℕ} (hj : j < g.nlat) (hi : i < g.nlon) :
    bincount g w obs (j * g.nlon + i) =
      ((obs.filter (fun o =>
          colIdx g o == (i : ℤ) && rowIdx g o == (j : ℤ))).map w).sum := by
  rw [bincount, List.filter_filter]
  congr 1
  congr 1
  apply List.filter_congr
  intro o _
  have hcast : ((j * g.nlon + i : ℕ) : ℤ) = (j : ℤ) * g.nlon + i := by
    push_cast; ring
  rw [Bool.eq_iff_iff, Bool.and_eq_true, Bool.and_eq_true,
      beq_iff_eq, beq_iff_eq, beq_iff_eq]
  constructor
  · rintro ⟨hlin, hin⟩
    exact (mem_cell_iff g o hj hi).mp ⟨hin, by rw [hlin, hcast]⟩
  · intro h
    have := (mem_cell_iff g o hj hi).mpr h
    exact ⟨by rw [this.2, hcast], this.1⟩

/-- C1: nearest-cell binning.  For every grid cell `(j,i)`, the accumulated
weighted-sum field (before the floor correction) is the sum of
`value * invsigma2` over exactly the observations whose rounded column index
is `i` and rounded row index is `j`, and likewise the inverse-variance field
is the sum of their `invsigma2`; observations whose rounded indices fall
outside the grid match no cell predicate and so contribute to no cell. -/
theorem binanalysis_binning (g : Grid) (obs : List Obs) (j i : ℕ)
    (hj : j < g.nlat) (hi : i < g.nlon) :
    msumRaw g obs (j * g.nlon + i) =
      ((obs.filter (fun o => colIdx g o == (i : ℤ) && rowIdx g o == (j : ℤ))).map
        (fun o => o.value * o.invsigma2)).sum ∧
    minvsigma2Raw g obs (j * g.nlon + i) =
      ((obs.filter (fun o => colIdx g o == (i : ℤ) && rowIdx g o == (j : ℤ))).map
        (fun o => o.invsigma2)).sum :=
  ⟨bincount_eq_cell_sum g _ obs hj hi, bincount_eq_cell_sum g _ obs hj hi⟩

/-- Concrete instance of `binanalysis_binning` at cell `(1,0)` of `gEx`. -/
theorem binanalysis_binning_witness :
    msumRaw gEx obsEx (1 * gEx.nlon + 0) =
      ((obsEx.filter (fun o => colIdx gEx o == (0 : ℤ) && rowIdx gEx o == (1 : ℤ))).map
        (fun o => o.value * o.invsigma2)).sum ∧
    minvsigma2Raw gEx obsEx (1 * gEx.nlon + 0) =
      ((obsEx.filter (fun o => colIdx gEx o == (0 : ℤ) && rowIdx gEx o == (1 : ℤ))).map
        (fun o => o.invsigma2)).sum :=
  binanalysis_binning gEx obsEx 1 0 (by decide) (by decide)

theorem bincount_nonneg (g : Grid) (w : Obs → ℚ) (obs : List Obs) (l : ℕ)
    (h : ∀ o ∈ obs, 0 ≤ w o) : 0 ≤ bincount g w obs l := by
  apply List.sum_nonneg
  intro x hx
  rw [List.mem_map] at hx
  obtain ⟨o, ho, rfl⟩ := hx
  exact h o (List.mem_of_mem_filter (List.mem_of_mem_filter ho))

/-- Behaviour of the clipped correction factor `alpha` for a nonnegative
accumulated inverse-variance `m`: it is positive, `alpha * m` never exceeds
`1/sigma2_min`, and when `m` is already at most `1/sigma2_min` it is `1`. -/
theorem alphaCell_spec (m : ℚ) (hm : 0 ≤ m) :
    0 < alphaCell m sigma2_min ∧
    alphaCell m sigma2_min * m ≤ 1 / sigma2_min ∧
    (m ≤ 1 / sigma2_min → alphaCell m sigma2_min = 1) := by
  have hs : sigma2_min = 1/25 := by norm_num [sigma2_min]
  rcases eq_or_lt_of_le hm with h0 | hpos
  · rw [← h0]
    simp only [alphaCell, zero_mul, if_pos rfl]
    norm_num [hs]
  · have hms : 0 < m * sigma2_min := by rw [hs]; positivity
    rw [alphaCell, if_neg (ne_of_gt hms)]
    by_cases h1 : 1 < 1 / (m * sigma2_min)
    · rw [if_pos h1]
      have hlt : m * sigma2_min < 1 := by
        rw [lt_div_iff₀ hms] at h1; linarith
      rw [hs] at hlt ⊢
      exact ⟨one_pos, by linarith, fun _ => rfl⟩
    · rw [if_neg h1]
      push_neg at h1
      have halpha : 0 < 1 / (m * sigma2_min) := by positivity
      have hval : 1 / (m * sigma2_min) * m = 1 / sigma2_min := by
        field_simp
      refine ⟨halpha, le_of_eq hval, ?_⟩
      intro hle
      have h2 : 1 ≤ m * sigma2_min := by
        rw [div_le_one hms] at h1; exact h1
      have h3 : m * sigma2_min ≤ 1 := by
        rw [hs] at hle ⊢; linarith
      rw [le_antisymm h3 h2]
      norm_num

/-- C2: the uncertainty floor.  With the default `sigma2_min = 0.04`, every
cell of the returned inverse-variance field is at most `1/sigma2_min`; a cell
whose accumulated inverse-variance is already at most `1/sigma2_min` keeps
both its inverse-variance and its weighted sum; and since both fields are
rescaled by the same positive `alpha`, a cell has data after the floor iff it
had data before, and the per-cell mean is unchanged by the floor. -/
theorem binanalysis_floor (g : Grid) (obs : List Obs) (l : ℕ)
    (hpos : ∀ o ∈ obs, 0 ≤ o.invsigma2) :
    sigma2_min = 4/100 ∧
    minvsigma2Final g obs sigma2_min l ≤ 1 / sigma2_min ∧
    (minvsigma2Raw g obs l ≤ 1 / sigma2_min →
      minvsigma2Final g obs sigma2_min l = minvsigma2Raw g obs l ∧
      msumFinal g obs sigma2_min l = msumRaw g obs l) ∧
    (0 < minvsigma2Final g obs sigma2_min l ↔ 0 < minvsigma2Raw g obs l) ∧
    (0 < minvsigma2Raw g obs l →
      msumFinal g obs sigma2_min l / minvsigma2Final g obs sigma2_min l =
        msumRaw g obs l / minvsigma2Raw g obs l) := by
  have hm : 0 ≤ minvsigma2Raw g obs l :=
    bincount_nonneg g _ obs l (fun o ho => hpos o ho)
  obtain ⟨hα, hbound, hone⟩ := alphaCell_spec (minvsigma2Raw g obs l) hm
  refine ⟨by norm_num [sigma2_min], ?_, ?_, ?_, ?_⟩
  · rw [minvsigma2Final]; exact hbound
  · intro hle
    rw [minvsigma2Final, msumFinal, hone hle, one_mul, one_mul]
    exact ⟨rfl, rfl⟩
  · rw [minvsigma2Final]
    constructor
    · intro h
      by_contra hc
      push_neg at hc
      have : minvsigma2Raw g obs l = 0 := le_antisymm hc hm
      rw [this, mul_zero] at h
      exact lt_irrefl 0 h
    · intro h
      exact mul_pos hα h
  · intro h
    rw [minvsigma2Final, msumFinal]
    exact mul_div_mul_left _ _ (ne_of_gt hα)

/-- Concrete instance of `binanalysis_floor` on `gEx` at cell `(1,0)`. -/
theorem binanalysis_floor_witness :
    sigma2_min = 4/100 ∧
    minvsigma2Final gEx obsEx sigma2_min 3 ≤ 1 / sigma2_min ∧
    (minvsigma2Raw gEx obsEx 3 ≤ 1 / sigma2_min →
      minvsigma2Final gEx obsEx sigma2_min 3 = minvsigma2Raw gEx obsEx 3 ∧
      msumFinal gEx obsEx sigma2_min 3 = msumRaw gEx obsEx 3) ∧
    (0 < minvsigma2Final gEx obsEx sigma2_min 3 ↔ 0 < minvsigma2Raw gEx obsEx 3) ∧
    (0 < minvsigma2Raw gEx obsEx 3 →
      msumFinal gEx obsEx sigma2_min 3 / minvsigma2Final gEx obsEx sigma2_min 3 =
        msumRaw gEx obsEx 3 / minvsigma2Raw gEx obsEx 3) :=
  binanalysis_floor gEx obsEx 3 (by decide)

/-- C10: safety of `binanalysis`.  Every observation surviving the range
filter has a linear index in `[0, len(lat)*len(lon))`, and the mean field is
computed by division only on cells with strictly positive inverse-variance,
all other cells remaining NaN (`none`). -/
theorem binanalysis_safe (g : Grid) (obs : List Obs) :
    (∀ o ∈ obs.filter (fun o => obsInGrid g o),
      0 ≤ linIdx g o ∧ linIdx g o < (g.nlat : ℤ) * g.nlon) ∧
    (∀ l : ℕ,
      (0 < minvsigma2Final g obs sigma2_min l →
        mmean g obs sigma2_min l =
          some (msumFinal g obs sigma2_min l / minvsigma2Final g obs sigma2_min l)) ∧
      (minvsigma2Final g obs sigma2_min l ≤ 0 →
        mmean g obs sigma2_min l = none)) := by
  constructor
  · intro o ho
    have hin := List.of_mem_filter ho
    rw [obsInGrid, decide_eq_true_iff] at hin
    obtain ⟨hc0, hcn, hr0, hrn⟩ := hin
    rw [linIdx]
    constructor
    · have h1 : (0 : ℤ) ≤ rowIdx g o * g.nlon :=
        mul_nonneg hr0 (Int.ofNat_nonneg _)
      linarith
    · have h1 : rowIdx g o ≤ (g.nlat : ℤ) - 1 := by omega
      have h2 : rowIdx g o * g.nlon ≤ ((g.nlat : ℤ) - 1) * g.nlon :=
        mul_le_mul_of_nonneg_right h1 (Int.ofNat_nonneg _)
      have h3 : ((g.nlat : ℤ) - 1) * g.nlon = (g.nlat : ℤ) * g.nlon - g.nlon := by
        ring
      linarith
  · intro l
    constructor
    · intro h
      rw [mmean, if_pos h]
    · intro h
      rw [mmean, if_neg (by linarith)]

/-- Concrete instance of `binanalysis_safe` on the example inputs. -/
theorem binanalysis_safe_witness :
    (∀ o ∈ obsEx.filter (fun o => obsInGrid gEx o),
      0 ≤ linIdx gEx o ∧ linIdx gEx o < (gEx.nlat : ℤ) * gEx.nlon) ∧
    (∀ l : ℕ,
      (0 < minvsigma2Final gEx obsEx sigma2_min l →
        mmean gEx obsEx sigma2_min l =
          some (msumFinal gEx obsEx sigma2_min l / minvsigma2Final gEx obsEx sigma2_min l)) ∧
      (minvsigma2Final gEx obsEx sigma2_min l ≤ 0 →
        mmean gEx obsEx sigma2_min l = none)) :=
  binanalysis_safe gEx obsEx

theorem applyMask_map {α β : Type} (f : α → β) (p : α → Bool) :
    ∀ rs : List α, applyMask (rs.map f) (rs.map p) = (rs.filter p).map f := by
  intro rs
  induction rs with
  | nil => rfl
  | cons r rs ih =>
    simp only [List.map_cons, applyMask, List.filter_cons]
    by_cases h : p r
    · rw [if_pos h, if_pos h, List.map_cons, ih]
    · rw [if_neg h, if_neg h, ih]

/-- C3: `loadobs` returns the five arrays filtered by one common mask, so
they are the index-aligned projections of the list of records passing the
selection; and a record passes the selection iff it is in the input and
satisfies `depth < 10`, `lon[0] < lon < lon[-1]`, `lat[0] < lat < lat[-1]`,
and `|value| < 200` (all strict). -/
theorem loadobs_filter (g : Grid) (rs : List ObsRec) :
    loadobs g rs =
      ((rs.filter (fun r => selObs g r)).map ObsRec.value,
       (rs.filter (fun r => selObs g r)).map ObsRec.lon,
       (rs.filter (fun r => selObs g r)).map ObsRec.lat,
       (rs.filter (fun r => selObs g r)).map ObsRec.depth,
       (rs.filter (fun r => selObs g r)).map ObsRec.time) ∧
    (∀ r : ObsRec, r ∈ rs.filter (fun r => selObs g r) ↔
      (r ∈ rs ∧ r.depth < 10 ∧ g.lon0 < r.lon ∧ r.lon < g.lonLast ∧
       g.lat0 < r.lat ∧ r.lat < g.latLast ∧ |r.value| < 200)) := by
  constructor
  · rw [loadobs]
    refine Prod.ext ?_ (Prod.ext ?_ (Prod.ext ?_ (Prod.ext ?_ ?_))) <;>
      simp only [applyMask_map]
  · intro r
    rw [List.mem_filter]
    simp only [selObs, Bool.and_eq_true, decide_eq_true_iff]
    tauto

/-- C4: channel layout of a `datagen` sample.  For every in-grid cell
`(j,i)`, channel 0 of the clean tensor is the binned weighted sum of the
mean-subtracted values, channel 1 the binned inverse-variance, channel 2 the
column longitude, channel 3 the row latitude, channels 4 and 5 the constant
cyclical month encodings; and the yielded target is exactly channels 0 and 1
of the clean tensor. -/
theorem datagen_sample_channels (g : Grid) (mobs : List ObsRec) (month : ℤ)
    (j i : ℕ) (_hj : j < g.nlat) (_hi : i < g.nlon) :
    cleanX g mobs month j i 0 =
      ((msumFinal g (binObs mobs) sigma2_min (j * g.nlon + i) : ℚ) : ℝ) ∧
    cleanX g mobs month j i 1 =
      ((minvsigma2Final g (binObs mobs) sigma2_min (j * g.nlon + i) : ℚ) : ℝ) ∧
    cleanX g mobs month j i 2 = ((g.lon.getD i 0 : ℚ) : ℝ) ∧
    cleanX g mobs month j i 3 = ((g.lat.getD j 0 : ℚ) : ℝ) ∧
    cleanX g mobs month j i 4 = Real.cos (2 * Real.pi * ((month : ℝ) - 1) / 12) ∧
    cleanX g mobs month j i 5 = Real.sin (2 * Real.pi * ((month : ℝ) - 1) / 12) ∧
    (∀ c : Fin 2, (sampleTest g mobs month).2 j i c = cleanX g mobs month j i c.val) :=
  ⟨rfl, rfl, rfl, rfl, rfl, rfl, fun _ => rfl⟩

/-- Concrete instance of `datagen_sample_channels` at cell `(1,0)`. -/
theorem datagen_sample_channels_witness :
    cleanX gEx obsRecEx 1 1 0 0 =
      ((msumFinal gEx (binObs obsRecEx) sigma2_min (1 * gEx.nlon + 0) : ℚ) : ℝ) ∧
    cleanX gEx obsRecEx 1 1 0 1 =
      ((minvsigma2Final gEx (binObs obsRecEx) sigma2_min (1 * gEx.nlon + 0) : ℚ) : ℝ) ∧
    cleanX gEx obsRecEx 1 1 0 2 = ((gEx.lon.getD 0 0 : ℚ) : ℝ) ∧
    cleanX gEx obsRecEx 1 1 0 3 = ((gEx.lat.getD 1 0 : ℚ) : ℝ) ∧
    cleanX gEx obsRecEx 1 1 0 4 = Real.cos (2 * Real.pi * (((1 : ℤ) : ℝ) - 1) / 12) ∧
    cleanX gEx obsRecEx 1 1 0 5 = Real.sin (2 * Real.pi * (((1 : ℤ) : ℝ) - 1) / 12) ∧
    (∀ c : Fin 2, (sampleTest gEx obsRecEx 1).2 1 0 c = cleanX gEx obsRecEx 1 1 0 c.val) :=
  datagen_sample_channels gEx obsRecEx 1 1 0 (by decide) (by decide)

/-- C6: the noise-jitter step.  On cells with strictly positive clean
inverse-variance, channel 0 gains additive noise scaled by
`jitter_std_value` and channel 1 becomes `1/(1/minvsigma2 + jv^2)`, so the
per-cell variance `1/channel1` increases by exactly `jv^2`; on the other
cells channels 0 and 1 are untouched; channels 2 and 3 receive coordinate
jitter at every cell. -/
theorem datagen_noise (g : Grid) (x : Tensor) (minv : ℕ → ℚ) (jv jlon jlat : ℝ)
    (e0 e2 e3 : ℕ → ℕ → ℝ) (j i : ℕ) :
    (0 < minv (j * g.nlon + i) →
      noiseX g x minv jv jlon jlat e0 e2 e3 j i 0 = x j i 0 + jv * e0 j i ∧
      noiseX g x minv jv jlon jlat e0 e2 e3 j i 1 =
        1 / (1 / ((minv (j * g.nlon + i) : ℚ) : ℝ) + jv ^ 2) ∧
      1 / noiseX g x minv jv jlon jlat e0 e2 e3 j i 1 =
        1 / ((minv (j * g.nlon + i) : ℚ) : ℝ) + jv ^ 2) ∧
    (minv (j * g.nlon + i) ≤ 0 →
      noiseX g x minv jv jlon jlat e0 e2 e3 j i 0 = x j i 0 ∧
      noiseX g x minv jv jlon jlat e0 e2 e3 j i 1 = x j i 1) ∧
    noiseX g x minv jv jlon jlat e0 e2 e3 j i 2 = x j i 2 + jlon * e2 j i ∧
    noiseX g x minv jv jlon jlat e0 e2 e3 j i 3 = x j i 3 + jlat * e3 j i := by
  refine ⟨?_, ?_, rfl, rfl⟩
  · intro h
    refine ⟨by simp [noiseX, h], by simp [noiseX, h], ?_⟩
    have h1 : noiseX g x minv jv jlon jlat e0 e2 e3 j i 1 =
        1 / (1 / ((minv (j * g.nlon + i) : ℚ) : ℝ) + jv ^ 2) := by
      simp [noiseX, h]
    rw [h1, one_div_one_div]
  · intro h
    have h0 : ¬ 0 < minv (j * g.nlon + i) := not_lt.mpr h
    exact ⟨by simp [noiseX, h0], by simp [noiseX, h0]⟩

/-- Concrete instance of `datagen_noise` at cell `(0,0)`. -/
theorem datagen_noise_witness :
    (0 < (fun _ : ℕ => (1 : ℚ)) (0 * gEx.nlon + 0) →
      noiseX gEx zerosT (fun _ => 1) 1 1 1 (fun _ _ => 0) (fun _ _ => 0) (fun _ _ => 0) 0 0 0 =
        zerosT 0 0 0 + 1 * (fun _ _ : ℕ => (0 : ℝ)) 0 0 ∧
      noiseX gEx zerosT (fun _ => 1) 1 1 1 (fun _ _ => 0) (fun _ _ => 0) (fun _ _ => 0) 0 0 1 =
        1 / (1 / (((fun _ : ℕ => (1 : ℚ)) (0 * gEx.nlon + 0) : ℚ) : ℝ) + 1 ^ 2) ∧
      1 / noiseX gEx zerosT (fun _ => 1) 1 1 1 (fun _ _ => 0) (fun _ _ => 0) (fun _ _ => 0) 0 0 1 =
        1 / (((fun _ : ℕ => (1 : ℚ)) (0 * gEx.nlon + 0) : ℚ) : ℝ) + 1 ^ 2) ∧
    ((fun _ : ℕ => (1 : ℚ)) (0 * gEx.nlon + 0) ≤ 0 →
      noiseX gEx zerosT (fun _ => 1) 1 1 1 (fun _ _ => 0) (fun _ _ => 0) (fun _ _ => 0) 0 0 0 =
        zerosT 0 0 0 ∧
      noiseX gEx zerosT (fun _ => 1) 1 1 1 (fun _ _ => 0) (fun _ _ => 0) (fun _ _ => 0) 0 0 1 =
        zerosT 0 0 1) ∧
    noiseX gEx zerosT (fun _ => 1) 1 1 1 (fun _ _ => 0) (fun _ _ => 0) (fun _ _ => 0) 0 0 2 =
      zerosT 0 0 2 + 1 * (fun _ _ : ℕ => (0 : ℝ)) 0 0 ∧
    noiseX gEx zerosT (fun _ => 1) 1 1 1 (fun _ _ => 0) (fun _ _ => 0) (fun _ _ => 0) 0 0 3 =
      zerosT 0 0 3 + 1 * (fun _ _ : ℕ => (0 : ℝ)) 0 0 :=
  datagen_noise gEx zerosT (fun _ => 1) 1 1 1 (fun _ _ => 0) (fun _ _ => 0) (fun _ _ => 0) 0 0

/-- C5: frame effect of the corruption.  Every pair yielded by the training
generator is `(xin, ySlice x)` where `xin` is the gap-masked, noise-jittered
copy and the target is the `x[:,:,0:2]` slice of the clean tensor `x`; the
clean tensor is computed before any corruption (it does not depend on the
noise draws, the jitter amplitudes, or the gap draws), and the target agrees
with it on channels 0 and 1 at every cell. -/
theorem datagen_clean_target (g : Grid) (mobs : List ObsRec) (month : ℤ)
    (jv jlon jlat : ℝ) (e0 e2 e3 : ℕ → ℕ → ℝ) (u : ℕ → ℚ × ℚ) (fuel : ℕ) :
    sampleTrain g mobs month jv jlon jlat e0 e2 e3 u fuel =
      Option.map (fun ctr =>
        (gapX g (noiseX g (cleanX g mobs month)
            (minvsigma2Final g (binObs mobs) sigma2_min) jv jlon jlat e0 e2 e3)
          (minvsigma2Final g (binObs mobs) sigma2_min) ctr,
         ySlice (cleanX g mobs month)))
        (findCenter g (minvsigma2Final g (binObs mobs) sigma2_min) u fuel) ∧
    ∀ (j i : ℕ) (c : Fin 2),
      ySlice (cleanX g mobs month) j i c = cleanX g mobs month j i c.val := by
  constructor
  · simp only [sampleTrain]
    cases findCenter g (minvsigma2Final g (binObs mobs) sigma2_min) u fuel <;> rfl
  · intro j i c
    rfl

theorem minvFinal_binObs_nonneg (g : Grid) (mobs : List ObsRec) (l : ℕ) :
    0 ≤ minvsigma2Final g (binObs mobs) sigma2_min l := by
  have hm : 0 ≤ minvsigma2Raw g (binObs mobs) l := by
    apply bincount_nonneg
    intro o ho
    rw [binObs, List.mem_map] at ho
    obtain ⟨r, _, rfl⟩ := ho
    norm_num
  exact mul_nonneg (le_of_lt (alphaCell_spec _ hm).1) hm

/-- After the noise step, `xin[:,:,1] > 0` holds exactly on the cells where
the clean inverse-variance is strictly positive. -/
theorem noiseX_inv_pos_iff (g : Grid) (mobs : List ObsRec) (month : ℤ)
    (jv jlon jlat : ℝ) (e0 e2 e3 : ℕ → ℕ → ℝ) (j i : ℕ) :
    (0 < noiseX g (cleanX g mobs month) (minvsigma2Final g (binObs mobs) sigma2_min)
        jv jlon jlat e0 e2 e3 j i 1) ↔
      0 < minvsigma2Final g (binObs mobs) sigma2_min (j * g.nlon + i) := by
  by_cases hpos : 0 < minvsigma2Final g (binObs mobs) sigma2_min (j * g.nlon + i)
  · have h1 : noiseX g (cleanX g mobs month)
        (minvsigma2Final g (binObs mobs) sigma2_min) jv jlon jlat e0 e2 e3 j i 1 =
        1 / (1 / ((minvsigma2Final g (binObs mobs) sigma2_min (j * g.nlon + i) : ℚ) : ℝ)
          + jv ^ 2) := by
      simp [noiseX, hpos]
    have hden : (0 : ℝ) <
        1 / ((minvsigma2Final g (binObs mobs) sigma2_min (j * g.nlon + i) : ℚ) : ℝ)
          + jv ^ 2 := by
      have : (0 : ℝ) <
          ((minvsigma2Final g (binObs mobs) sigma2_min (j * g.nlon + i) : ℚ) : ℝ) := by
        exact_mod_cast hpos
      positivity
    rw [h1]
    simp only [hpos, iff_true]
    positivity
  · have h0 : minvsigma2Final g (binObs mobs) sigma2_min (j * g.nlon + i) = 0 :=
      le_antisymm (not_lt.mp hpos) (minvFinal_binObs_nonneg g mobs _)
    have h1 : noiseX g (cleanX g mobs month)
        (minvsigma2Final g (binObs mobs) sigma2_min) jv jlon jlat e0 e2 e3 j i 1 =
        cleanX g mobs month j i 1 := by
      simp [noiseX, hpos]
    have h2 : cleanX g mobs month j i 1 =
        ((minvsigma2Final g (binObs mobs) sigma2_min (j * g.nlon + i) : ℚ) : ℝ) := rfl
    rw [h1, h2, h0]
    norm_num

/-- The executable gap mask `selmaskB` agrees with the literal source
formula `(dist(x[:,:,2], gap_lon, x[:,:,3], gap_lat) < size_gap) &
(xin[:,:,1] > 0)`. -/
theorem selmask_equiv (g : Grid) (mobs : List ObsRec) (month : ℤ)
    (jv jlon jlat : ℝ) (e0 e2 e3 : ℕ → ℕ → ℝ) (ctr : ℚ × ℚ) (j i : ℕ) :
    selmaskB g (minvsigma2Final g (binObs mobs) sigma2_min) ctr j i = true ↔
      (dist (cleanX g mobs month j i 2) ((ctr.1 : ℚ) : ℝ)
            (cleanX g mobs month j i 3) ((ctr.2 : ℚ) : ℝ) < ((size_gap : ℚ) : ℝ) ∧
       0 < noiseX g (cleanX g mobs month) (minvsigma2Final g (binObs mobs) sigma2_min)
           jv jlon jlat e0 e2 e3 j i 1) := by
  rw [selmaskB, decide_eq_true_iff,
    noiseX_inv_pos_iff g mobs month jv jlon jlat e0 e2 e3 j i]
  apply and_congr _ Iff.rfl
  have hc2 : cleanX g mobs month j i 2 = ((g.lon.getD i 0 : ℚ) : ℝ) := rfl
  have hc3 : cleanX g mobs month j i 3 = ((g.lat.getD j 0 : ℚ) : ℝ) := rfl
  have h32 : (0 : ℝ) < ((size_gap : ℚ) : ℝ) := by norm_num [size_gap]
  rw [hc2, hc3, dist, Real.sqrt_lt' h32]
  rw [show (((size_gap : ℚ) : ℝ)) ^ 2 = (((size_gap ^ 2 : ℚ)) : ℝ) by push_cast; ring]
  constructor
  · intro h
    exact_mod_cast h
  · intro h
    exact_mod_cast h

theorem minv_gEx7 : minvsigma2Final gEx7 (binObs obsRecEx7) sigma2_min 3 = 1 := by
  have h : minvsigma2Raw gEx7 (binObs obsRecEx7) 3 = 1 := by
    norm_num [minvsigma2Raw, bincount, binObs, obsRecEx7, obsInGrid, linIdx,
      colIdx, rowIdx, gEx7, Grid.lon0, Grid.lat0, Grid.dlon, Grid.dlat,
      Grid.nlon, Grid.nlat, rint, meandataval, List.filter]
  rw [minvsigma2Final, h]
  norm_num [alphaCell, sigma2_min]

/-- C7 (code bug): the gap mask is not a disk around the drawn centre.  On
the grid `gEx7` with one observed cell at `(lon,lat) = (10,10)` and the
candidate centre `(0,0)`, the code's mask contains cell `(1,1)` — the value
of `dist` as called in the source, `dist(x[:,:,2], gap_lon, x[:,:,3],
gap_lat)`, is below `size_gap` there — although the Euclidean lon/lat
distance between the cell and the centre (the same `dist` with its
arguments paired as its parameter list intends) exceeds `size_gap`. -/
theorem gap_mask_not_euclidean :
    selmaskB gEx7 (minvsigma2Final gEx7 (binObs obsRecEx7) sigma2_min)
      (gapCenter gEx7 (0, 0)) 1 1 = true ∧
    dist (cleanX gEx7 obsRecEx7 1 1 1 2) (((gapCenter gEx7 (0, 0)).1 : ℚ) : ℝ)
         (cleanX gEx7 obsRecEx7 1 1 1 3) (((gapCenter gEx7 (0, 0)).2 : ℚ) : ℝ) <
      ((size_gap : ℚ) : ℝ) ∧
    ((size_gap : ℚ) : ℝ) <
      dist (cleanX gEx7 obsRecEx7 1 1 1 2) (cleanX gEx7 obsRecEx7 1 1 1 3)
           (((gapCenter gEx7 (0, 0)).1 : ℚ) : ℝ) (((gapCenter gEx7 (0, 0)).2 : ℚ) : ℝ) := by
  have hctr : gapCenter gEx7 (0, 0) = (0, 0) := by
    norm_num [gapCenter, gEx7, Grid.lon0, Grid.lat0, Grid.lonLast, Grid.latLast]
  have hc2 : cleanX gEx7 obsRecEx7 1 1 1 2 = ((10 : ℚ) : ℝ) := rfl
  have hc3 : cleanX gEx7 obsRecEx7 1 1 1 3 = ((10 : ℚ) : ℝ) := rfl
  refine ⟨?_, ?_, ?_⟩
  · rw [selmaskB, decide_eq_true_iff]
    constructor
    · norm_num [gEx7, gapCenter, Grid.lon0, Grid.lat0, Grid.lonLast,
        Grid.latLast, size_gap]
    · rw [show 1 * gEx7.nlon + 1 = 3 from rfl, minv_gEx7]
      norm_num
  · rw [hctr, hc2, hc3, dist]
    norm_num [size_gap]
  · rw [hctr, hc2, hc3, dist]
    have h1 : (((10 : ℚ) : ℝ) - ((0 : ℚ) : ℝ)) ^ 2 +
        (((0 : ℚ) : ℝ) - ((10 : ℚ) : ℝ)) ^ 2 = 200 := by push_cast; norm_num
    rw [h1]
    have h2 : ((size_gap : ℚ) : ℝ) = 3 / 2 := by norm_num [size_gap]
    rw [h2, show (3 / 2 : ℝ) = Real.sqrt ((3 / 2) ^ 2) by
      rw [Real.sqrt_sq]; norm_num]
    apply Real.sqrt_lt_sqrt <;> norm_num

/-- C8: incremental NetCDF writing.  With `ii == 0` the file is created with
the given `lon`, `lat` and masked `meandata`; with `ii != 0` the existing
file's `lon`, `lat` and `meandata` are left unchanged; and in both cases
batch row `n` is written at time index `n + offset` as the reconstructed
mean `batch_m_rec[n] + meandata` and the reconstructed standard deviation
`sqrt(batch_sigma2_rec[n])`, both masked to the fill value on land cells. -/
theorem savesample_spec (prev : NCFile) (batch_m batch_σ2 : ℕ → ℕ → ℕ → ℝ)
    (bsize : ℕ) (mdval : ℕ → ℕ → ℝ) (mmask : ℕ → ℕ → Bool)
    (lonL latL : List ℚ) (ii offset : ℕ) :
    (ii = 0 →
      (savesample prev batch_m batch_σ2 bsize mdval mmask lonL latL ii offset).lon = lonL ∧
      (savesample prev batch_m batch_σ2 bsize mdval mmask lonL latL ii offset).lat = latL ∧
      ∀ j i, (savesample prev batch_m batch_σ2 bsize mdval mmask lonL latL ii offset).meandata j i =
        (if mmask j i then none else some (mdval j i))) ∧
    (ii ≠ 0 →
      (savesample prev batch_m batch_σ2 bsize mdval mmask lonL latL ii offset).lon = prev.lon ∧
      (savesample prev batch_m batch_σ2 bsize mdval mmask lonL latL ii offset).lat = prev.lat ∧
      (savesample prev batch_m batch_σ2 bsize mdval mmask lonL latL ii offset).meandata =
        prev.meandata) ∧
    (∀ n, n < bsize → ∀ j i,
      (savesample prev batch_m batch_σ2 bsize mdval mmask lonL latL ii offset).m_rec
          (n + offset) j i =
        (if mmask j i then none else some (batch_m n j i + mdval j i)) ∧
      (savesample prev batch_m batch_σ2 bsize mdval mmask lonL latL ii offset).sigma_rec
          (n + offset) j i =
        (if mmask j i then none else some (Real.sqrt (batch_σ2 n j i)))) := by
  refine ⟨?_, ?_, ?_⟩
  · intro h
    subst h
    exact ⟨rfl, rfl, fun j i => rfl⟩
  · intro h
    exact ⟨by simp [savesample, h], by simp [savesample, h], by simp [savesample, h]⟩
  · intro n hn j i
    have hcond : offset ≤ n + offset ∧ n + offset < offset + bsize :=
      ⟨by omega, by omega⟩
    constructor
    · show (if offset ≤ n + offset ∧ n + offset < offset + bsize then
          (if mmask j i then none else some (batch_m (n + offset - offset) j i + mdval j i))
        else _) = _
      rw [if_pos hcond, Nat.add_sub_cancel]
    · show (if offset ≤ n + offset ∧ n + offset < offset + bsize then
          (if mmask j i then none else some (Real.sqrt (batch_σ2 (n + offset - offset) j i)))
        else _) = _
      rw [if_pos hcond, Nat.add_sub_cancel]

/-- Concrete instance of `savesample_spec` in append mode. -/
theorem savesample_spec_witness :
    ((1 : ℕ) = 0 →
      (savesample ncEx (fun _ _ _ => 2) (fun _ _ _ => 4) 1 (fun _ _ => 15)
        (fun _ _ => false) [0] [0] 1 0).lon = [0] ∧
      (savesample ncEx (fun _ _ _ => 2) (fun _ _ _ => 4) 1 (fun _ _ => 15)
        (fun _ _ => false) [0] [0] 1 0).lat = [0] ∧
      ∀ j i, (savesample ncEx (fun _ _ _ => 2) (fun _ _ _ => 4) 1 (fun _ _ => 15)
        (fun _ _ => false) [0] [0] 1 0).meandata j i =
        (if (fun _ _ : ℕ => false) j i then none else some ((fun _ _ : ℕ => (15 : ℝ)) j i))) ∧
    ((1 : ℕ) ≠ 0 →
      (savesample ncEx (fun _ _ _ => 2) (fun _ _ _ => 4) 1 (fun _ _ => 15)
        (fun _ _ => false) [0] [0] 1 0).lon = ncEx.lon ∧
      (savesample ncEx (fun _ _ _ => 2) (fun _ _ _ => 4) 1 (fun _ _ => 15)
        (fun _ _ => false) [0] [0] 1 0).lat = ncEx.lat ∧
      (savesample ncEx (fun _ _ _ => 2) (fun _ _ _ => 4) 1 (fun _ _ => 15)
        (fun _ _ => false) [0] [0] 1 0).meandata = ncEx.meandata) ∧
    (∀ n, n < 1 → ∀ j i,
      (savesample ncEx (fun _ _ _ => 2) (fun _ _ _ => 4) 1 (fun _ _ => 15)
        (fun _ _ => false) [0] [0] 1 0).m_rec (n + 0) j i =
        (if (fun _ _ : ℕ => false) j i then none
         else some ((fun _ _ _ : ℕ => (2 : ℝ)) n j i + (fun _ _ : ℕ => (15 : ℝ)) j i)) ∧
      (savesample ncEx (fun _ _ _ => 2) (fun _ _ _ => 4) 1 (fun _ _ => 15)
        (fun _ _ => false) [0] [0] 1 0).sigma_rec (n + 0) j i =
        (if (fun _ _ : ℕ => false) j i then none
         else some (Real.sqrt ((fun _ _ _ : ℕ => (4 : ℝ)) n j i)))) :=
  savesample_spec ncEx (fun _ _ _ => 2) (fun _ _ _ => 4) 1 (fun _ _ => 15)
    (fun _ _ => false) [0] [0] 1 0

/-- C9: cross-validation statistics.  Every observation falls in exactly one
of the 12 calendar-month groups; the RMS of month `m` is the square root of
the mean of the squared differences between the interpolated reconstruction
and the observed value, taken over the month's observations with a finite
interpolated value; and the total score is the square root of the mean of
the 12 squared monthly RMS values. -/
theorem monthlyCVRMS_spec (interp : ℕ → ℚ × ℚ → Option ℝ) (rs : List ObsRec) :
    (∀ r ∈ rs, ∃! m : ℤ, 0 ≤ m ∧ m < 12 ∧ monthOf0 r.time = m) ∧
    (∀ m : ℕ, m < 12 →
      (monthlyCVRMS interp rs).1.getD m 0 =
        Real.sqrt ((sqDiffs interp m rs).sum / (sqDiffs interp m rs).length)) ∧
    (monthlyCVRMS interp rs).2 =
      Real.sqrt ((((List.range 12).map (fun m => RMSmonth interp rs m ^ 2)).sum) / 12) := by
  refine ⟨?_, ?_, ?_⟩
  · intro r _
    refine ⟨monthOf0 r.time,
      ⟨Int.emod_nonneg _ (by norm_num), Int.emod_lt_of_pos _ (by norm_num), rfl⟩, ?_⟩
    intro y hy
    exact hy.2.2.symm
  · intro m hm
    have hlen : m < ((List.range 12).map (fun k => RMSmonth interp rs k)).length := by
      simp [hm]
    show ((List.range 12).map (fun k => RMSmonth interp rs k)).getD m 0 = _
    rw [List.getD_eq_getElem _ _ hlen]
    simp [RMSmonth]
  · show Real.sqrt ((((List.range 12).map (fun k => RMSmonth interp rs k)).map
      (fun x => x ^ 2)).sum / 12) = _
    rw [List.map_map]
    rfl

/-- Concrete instance of `monthlyCVRMS_spec`. -/
theorem monthlyCVRMS_spec_witness :
    (∀ r ∈ rsEx, ∃! m : ℤ, 0 ≤ m ∧ m < 12 ∧ monthOf0 r.time = m) ∧
    (∀ m : ℕ, m < 12 →
      (monthlyCVRMS interpEx rsEx).1.getD m 0 =
        Real.sqrt ((sqDiffs interpEx m rsEx).sum / (sqDiffs interpEx m rsEx).length)) ∧
    (monthlyCVRMS interpEx rsEx).2 =
      Real.sqrt ((((List.range 12).map (fun m => RMSmonth interpEx rsEx m ^ 2)).sum) / 12) :=
  monthlyCVRMS_spec interpEx rsEx

end DINCAE
